import Mathlib

/-!
Verification of the configmapsecrets reconciliation engine.

This file gives a shallow embedding, in Lean, of the core data model and
algorithms of the `configmapsecrets` controller:

* the `$(VAR)` expansion engine (the `third_party/.../expansion` package),
* the variable resolver (`ConfigMapSecret.makeVariables` and friends),
* the status-condition manager (`pkg/controllers/conditions.go`),
* the owned-secret lifecycle (`setOwner`, `shouldUpdate`, `sync`,
  `cleanup`, `Reconcile` error combination),
* the bidirectional reference index (`pkg/controllers/refmap.go`),

and proves (or refutes) the specification claims about them.

Modelling conventions:

* The cluster API is modelled as an immutable per-namespace snapshot
  (`Cluster`): all reads within one reconcile see the same state, which is
  exactly what the per-reconcile object caches in the Go code guarantee,
  so the caches themselves are semantically transparent and are not
  modelled.  A `Get` can report the object, not-found, or a transient
  API failure.
* Go `map[string]string` values are modelled as association lists
  (`List (String × String)`); resolved environments are modelled as
  functions `String → Option String`.
* Go `*bool` is `Option Bool`, Go errors are the `Err` type below, with
  the `configError` wrapper of the source kept as a distinguished
  constructor.
* Timestamps (`metav1.Time`) are opaque `Nat` values threaded in as a
  `now` parameter.
-/

namespace CMS

/-! ## Errors

`configError` (src/unnamed/part_005 lines 647-669) wraps an error to mark a
user-configuration problem; `isConfigError` tests for the marker interface. -/

inductive Err where
  | config (msg : String)
  | other (msg : String)
  deriving DecidableEq, Repr

/-- Error message, as Go `Error()`. -/
def Err.msg : Err → String
  | .config m => m
  | .other m => m

/-- `isConfigError` (src/unnamed/part_005 lines 664-669). -/
def isConfigError : Err → Bool
  | .config _ => true
  | .other _ => false

instance instDecEqExcept {ε α : Type} [DecidableEq ε] [DecidableEq α] :
    DecidableEq (Except ε α)
  | .ok x, .ok y =>
    if h : x = y then .isTrue (congrArg Except.ok h)
    else .isFalse (fun hh => h (Except.ok.inj hh))
  | .error x, .error y =>
    if h : x = y then .isTrue (congrArg Except.error h)
    else .isFalse (fun hh => h (Except.error.inj hh))
  | .ok _, .error _ => .isFalse (fun hh => Except.noConfusion hh)
  | .error _, .ok _ => .isFalse (fun hh => Except.noConfusion hh)

/-! ## Expansion engine

Modelled from the spec: the repository's
`third_party/kubernetes/forked/golang/expansion` package is not under
`src/`; §4.2 of the spec gives its contract.  A single left-to-right pass:
`$$` yields `$` (so `$$(X)` yields the literal `$(X)`); `$(NAME)` is
replaced by the mapped value when the mapping binds `NAME` and is left
verbatim otherwise; an unbalanced `$(` is emitted verbatim; substituted
values are not re-scanned.  The Go `MappingFuncFor(vars)` indirection
(value when found, the original `$(NAME)` otherwise) is folded into the
`Option`-returning mapping argument. -/

/-- Scan up to the first `)`; return the characters before it and the rest. -/
def splitRef : List Char → Option (List Char × List Char)
  | [] => none
  | c :: rest =>
    if c = ')' then some ([], rest)
    else (splitRef rest).map (fun p => (c :: p.1, p.2))

theorem splitRef_length {l name rest : List Char}
    (h : splitRef l = some (name, rest)) : rest.length < l.length := by
  induction l generalizing name rest with
  | nil => simp [splitRef] at h
  | cons c l ih =>
    simp only [splitRef] at h
    split at h
    · cases h
      simp
    · cases hs : splitRef l with
      | none => rw [hs] at h; simp at h
      | some p =>
        rw [hs] at h
        cases h
        have := ih (show splitRef l = some (p.1, p.2) by rw [hs])
        simpa using Nat.lt_trans this (Nat.lt_succ_self _)

/-- Emit a reference: the mapped value when bound, the original
`$(NAME)` sequence otherwise (the Go `MappingFuncFor` behaviour). -/
def emitRef (m : String → Option String) (name : List Char) : List Char :=
  match m (String.mk name) with
  | some v => v.data
  | none => '$' :: '(' :: (name ++ [')'])

/-- Modelled from the spec: single-pass expansion over the character
list, with explicit fuel for structural recursion (each step consumes at
least one character, so `fuel = length` suffices; see `expandGo_fuel`).
A `$` followed by `$` emits one `$`; a `$(` scans for the matching `)`
and substitutes when the name is bound, never rescanning the substituted
value; a `$` before any other character, or a trailing `$`, passes
through verbatim. -/
def expandGo (m : String → Option String) : Nat → List Char → List Char
  | 0, _ => []
  | _ + 1, [] => []
  | fuel + 1, c :: rest =>
    if c = '$' then
      match rest with
      | [] => [c]
      | r :: rest₂ =>
        if r = '$' then '$' :: expandGo m fuel rest₂
        else if r = '(' then
          match splitRef rest₂ with
          | some (name, rest₃) => emitRef m name ++ expandGo m fuel rest₃
          | none => '$' :: '(' :: expandGo m fuel rest₂
        else c :: r :: expandGo m fuel rest₂
    else c :: expandGo m fuel rest

/-- The result does not depend on the fuel once it covers the input. -/
theorem expandGo_fuel (m : String → Option String) (f₁ f₂ : Nat) (l : List Char)
    (h₁ : l.length ≤ f₁) (h₂ : l.length ≤ f₂) : expandGo m f₁ l = expandGo m f₂ l := by
  induction f₁ generalizing f₂ l with
  | zero =>
    cases l with
    | nil => cases f₂ <;> rfl
    | cons c rest => simp at h₁
  | succ f ih =>
    cases l with
    | nil => cases f₂ <;> rfl
    | cons c rest =>
      cases f₂ with
      | zero => simp at h₂
      | succ f₂ =>
        simp only [List.length_cons, Nat.add_le_add_iff_right] at h₁ h₂
        by_cases hc : c = '$'
        · subst hc
          cases rest with
          | nil => rfl
          | cons r rest₂ =>
            simp only [List.length_cons] at h₁ h₂
            by_cases hr : r = '$'
            · subst hr
              show '$' :: expandGo m f rest₂ = '$' :: expandGo m f₂ rest₂
              rw [ih f₂ rest₂ (by omega) (by omega)]
            · by_cases hp : r = '('
              · subst hp
                show (match splitRef rest₂ with
                  | some (name, rest₃) => emitRef m name ++ expandGo m f rest₃
                  | none => '$' :: '(' :: expandGo m f rest₂)
                  = (match splitRef rest₂ with
                  | some (name, rest₃) => emitRef m name ++ expandGo m f₂ rest₃
                  | none => '$' :: '(' :: expandGo m f₂ rest₂)
                cases hsp : splitRef rest₂ with
                | none => rw [ih f₂ rest₂ (by omega) (by omega)]
                | some p =>
                  obtain ⟨nm, r3⟩ := p
                  have := splitRef_length (show splitRef rest₂ = some (nm, r3) by rw [hsp])
                  show emitRef m nm ++ expandGo m f r3 = emitRef m nm ++ expandGo m f₂ r3
                  rw [ih f₂ r3 (by omega) (by omega)]
              · simp only [expandGo, if_pos rfl, if_neg hr, if_neg hp, if_true]
                rw [ih f₂ rest₂ (by omega) (by omega)]
        · simp only [expandGo, if_neg hc]
          rw [ih f₂ rest h₁ h₂]

/-- The expansion scanner: fuel instantiated with the input length. -/
def expandChars (m : String → Option String) (l : List Char) : List Char :=
  expandGo m l.length l

theorem expandChars_cons_ne {c : Char} (m : String → Option String)
    (hc : ¬ c = '$') (rest : List Char) :
    expandChars m (c :: rest) = c :: expandChars m rest := by
  simp only [expandChars, List.length_cons, expandGo, if_neg hc]

theorem expandChars_dollar_dollar (m : String → Option String) (rest : List Char) :
    expandChars m ('$' :: '$' :: rest) = '$' :: expandChars m rest := by
  simp only [expandChars, List.length_cons, expandGo, if_pos rfl, reduceIte]
  rw [expandGo_fuel m (rest.length + 1) rest.length rest (by omega) (le_refl _)]

theorem expandChars_ref {rest₂ name rest₃ : List Char} (m : String → Option String)
    (hsp : splitRef rest₂ = some (name, rest₃)) :
    expandChars m ('$' :: '(' :: rest₂) = emitRef m name ++ expandChars m rest₃ := by
  have hlen := splitRef_length hsp
  have hstep : expandChars m ('$' :: '(' :: rest₂)
      = (match splitRef rest₂ with
         | some (name, rest₃) => emitRef m name ++ expandGo m (rest₂.length + 1) rest₃
         | none => '$' :: '(' :: expandGo m (rest₂.length + 1) rest₂) := rfl
  rw [hstep, hsp]
  show emitRef m name ++ expandGo m (rest₂.length + 1) rest₃ = _
  rw [expandGo_fuel m (rest₂.length + 1) rest₃.length rest₃ (by omega) (le_refl _)]
  rfl

/-- Modelled from the spec: `expansion.Expand` composed with
`expansion.MappingFuncFor`. -/
def expand (input : String) (mapping : String → Option String) : String :=
  String.mk (expandChars mapping input.data)

/-! ## API data model (`pkg/api/v1alpha1/configmapsecret_types.go`)

Go string-keyed maps become association lists; `[]byte` values become
`String`; `*bool` becomes `Option Bool`.  All names are per-namespace:
the model is scoped to the namespace of the source being reconciled. -/

/-- First-match association-list lookup (Go map indexing). -/
def lookupKV (l : List (String × String)) (k : String) : Option String :=
  (l.find? (fun kv => kv.1 = k)).map (·.2)

/-- `corev1.SecretKeySelector` / `corev1.ConfigMapKeySelector`. -/
structure KeySelector where
  name : String
  key : String
  optional : Option Bool
  deriving DecidableEq, Repr

/-- `v1alpha1.SecretVarsSource` / `v1alpha1.ConfigMapVarsSource`:
a local object reference plus the `optional` flag. -/
structure VarsSourceRef where
  name : String
  optional : Option Bool
  deriving DecidableEq, Repr

/-- `v1alpha1.VarsFromSource`.  `pfx` is the Go `Prefix` field. -/
structure VarsFromSource where
  pfx : String
  secretRef : Option VarsSourceRef
  configMapRef : Option VarsSourceRef
  deriving DecidableEq, Repr

/-- `v1alpha1.Var`. -/
structure Var where
  name : String
  value : String
  secretValue : Option KeySelector
  configMapValue : Option KeySelector
  deriving DecidableEq, Repr

/-- `v1alpha1.EmbeddedObjectMeta`. -/
structure EmbeddedObjectMeta where
  name : String
  labels : List (String × String)
  annotations : List (String × String)
  deriving DecidableEq, Repr

/-- `v1alpha1.ConfigMapTemplate`. -/
structure ConfigMapTemplate where
  metadata : EmbeddedObjectMeta
  data : List (String × String)
  binaryData : List (String × String)
  deriving DecidableEq, Repr

/-- `v1alpha1.ConfigMapSecretSpec`. -/
structure ConfigMapSecretSpec where
  template : ConfigMapTemplate
  varsFrom : List VarsFromSource
  vars : List Var
  deriving DecidableEq, Repr

/-- `corev1.ConditionStatus` (a string in Go: "True" / "False" / "Unknown"). -/
inductive ConditionStatus where
  | conditionTrue
  | conditionFalse
  | conditionUnknown
  deriving DecidableEq, Repr

/-- `v1alpha1.ConfigMapSecretCondition`.  `type` is the condition type
string ("RenderFailure" is the only type the controller emits). -/
structure Condition where
  type : String
  status : ConditionStatus
  lastUpdateTime : Nat
  lastTransitionTime : Nat
  reason : String
  message : String
  deriving DecidableEq, Repr

/-- `v1alpha1.ConfigMapSecretStatus`. -/
structure ConfigMapSecretStatus where
  observedGeneration : Int
  conditions : List Condition
  deriving DecidableEq, Repr

/-- `metav1.OwnerReference`. -/
structure OwnerRef where
  apiVersion : String
  kind : String
  name : String
  uid : String
  controller : Option Bool
  blockOwnerDeletion : Option Bool
  deriving DecidableEq, Repr

/-- A `corev1.Secret`, with the fields the controller reads or writes.
Namespace is implicit (the model is single-namespace). -/
structure SecretObj where
  name : String
  labels : List (String × String)
  annotations : List (String × String)
  ownerReferences : List OwnerRef
  data : List (String × String)
  type : String
  deriving DecidableEq, Repr

/-- A `corev1.ConfigMap`, with the fields the controller reads. -/
structure ConfigMapObj where
  name : String
  data : List (String × String)
  binaryData : List (String × String)
  deriving DecidableEq, Repr

/-- A `v1alpha1.ConfigMapSecret` (the source).  `ns` is the namespace. -/
structure ConfigMapSecretObj where
  name : String
  ns : String
  uid : String
  generation : Int
  ownerReferences : List OwnerRef
  spec : ConfigMapSecretSpec
  status : ConfigMapSecretStatus
  deriving DecidableEq, Repr

/-! ## Cluster snapshot

One reconcile reads a consistent snapshot of the cluster (the Go code
caches every fetched object for the duration of the reconcile, so
repeated reads agree).  A read either finds the object, reports
not-found, or fails transiently. -/

inductive GetRes (α : Type) where
  | found (a : α)
  | notFound
  | fail (msg : String)
  deriving DecidableEq, Repr

/-- The objects visible in the source's namespace during one reconcile. -/
structure Cluster where
  secrets : String → GetRes SecretObj
  configMaps : String → GetRes ConfigMapObj

/-! ## Variable resolver (src/unnamed/part_005 lines 350-540)

The resolved environment is a partial map from variable names to values.
The Go code builds a `map[string]string`; here an `Env` function, with
`envInsert` as map assignment. -/

def Env : Type := String → Option String

def emptyEnv : Env := fun _ => none

/-- `vars[k] = v`. -/
def envInsert (e : Env) (k v : String) : Env :=
  fun n => if n = k then some v else e n

/-- `for k, v := range srcVars { vars[k] = v }`. -/
def envInsertAll (e : Env) (kvs : List (String × String)) : Env :=
  kvs.foldl (fun acc kv => envInsert acc kv.1 kv.2) e

/-- The last binding of `k` in an association list, if any. -/
def lookupLastKV : List (String × String) → String → Option String
  | [], _ => none
  | kv :: rest, k =>
    match lookupLastKV rest k with
    | some v => some v
    | none => if kv.1 = k then some kv.2 else none

/-- Modelled from the spec: the contract of the external
`validation.IsEnvVarName` as stated in §4.3 — first character `[A-Za-z_]`,
remainder `[A-Za-z0-9_]`. -/
def isEnvVarName (s : String) : Bool :=
  match s.data with
  | [] => false
  | c :: rest => (c.isAlpha || c = '_') && rest.all (fun d => d.isAlphanum || d = '_')

/-- `validPrefixedKey` (src/unnamed/part_005 lines 569-577). -/
def validPrefixedKey (pfx key : String) : String × Bool :=
  let key := if pfx ≠ "" then pfx ++ key else key
  (key, isEnvVarName key)

/-- `ConfigMapSecret.secret` (lines 419-438): fetch a referenced Secret.
`ok none` means a missing optional reference (skip). -/
def secretGet (st : Cluster) (ref : VarsSourceRef) : Except Err (Option SecretObj) :=
  match st.secrets ref.name with
  | .found s => .ok (some s)
  | .notFound =>
    if ref.optional.getD false then .ok none
    else .error (.config ("secrets " ++ ref.name ++ " not found"))
  | .fail msg => .error (.other msg)

/-- `ConfigMapSecret.configMap` (lines 475-494). -/
def configMapGet (st : Cluster) (ref : VarsSourceRef) : Except Err (Option ConfigMapObj) :=
  match st.configMaps ref.name with
  | .found c => .ok (some c)
  | .notFound =>
    if ref.optional.getD false then .ok none
    else .error (.config ("configmaps " ++ ref.name ++ " not found"))
  | .fail msg => .error (.other msg)

/-- The per-key classification loop shared by `secretValues` and
`configMapValues`: valid prefixed keys become bindings, the rest become
invalid-key warnings. -/
def classifyKeys (pfx : String) : List (String × String) → List (String × String) × List String
  | [] => ([], [])
  | (k, v) :: rest =>
    let (vals, inv) := classifyKeys pfx rest
    let (k', valid) := validPrefixedKey pfx k
    if valid then ((k', v) :: vals, inv) else (vals, k' :: inv)

/-- `ConfigMapSecret.secretValues` (lines 440-455): bindings and
invalid keys contributed by one `varsFrom` secret entry. -/
def secretValues (st : Cluster) (pfx : String) (ref : VarsSourceRef) :
    Except Err (List (String × String) × List String) :=
  match secretGet st ref with
  | .error e => .error e
  | .ok none => .ok ([], [])
  | .ok (some secret) => .ok (classifyKeys pfx secret.data)

/-- `ConfigMapSecret.configMapValues` (lines 496-519): `data` keys then
`binaryData` keys (the two key sets are disjoint by validation). -/
def configMapValues (st : Cluster) (pfx : String) (ref : VarsSourceRef) :
    Except Err (List (String × String) × List String) :=
  match configMapGet st ref with
  | .error e => .error e
  | .ok none => .ok ([], [])
  | .ok (some cm) =>
    let d := classifyKeys pfx cm.data
    let b := classifyKeys pfx cm.binaryData
    .ok (d.1 ++ b.1, d.2 ++ b.2)

/-- `ConfigMapSecret.secretValue` (lines 457-473): resolve one
`secretValue` key reference.  `ok none` means skip (missing optional). -/
def secretValue (st : Cluster) (ref : KeySelector) : Except Err (Option String) :=
  match secretGet st { name := ref.name, optional := ref.optional } with
  | .error e => .error e
  | .ok none => .ok none
  | .ok (some secret) =>
    match lookupKV secret.data ref.key with
    | some buf => .ok (some buf)
    | none =>
      if ref.optional.getD false then .ok none
      else .error (.config ("missing key " ++ ref.key ++ " in Secret " ++ ref.name))

/-- `ConfigMapSecret.configMapValue` (lines 521-540): `data` is consulted
before `binaryData`. -/
def configMapValue (st : Cluster) (ref : KeySelector) : Except Err (Option String) :=
  match configMapGet st { name := ref.name, optional := ref.optional } with
  | .error e => .error e
  | .ok none => .ok none
  | .ok (some cm) =>
    match lookupKV cm.data ref.key with
    | some str => .ok (some str)
    | none =>
      match lookupKV cm.binaryData ref.key with
      | some buf => .ok (some buf)
      | none =>
        if ref.optional.getD false then .ok none
        else .error (.config ("missing key " ++ ref.key ++ " in ConfigMap " ++ ref.name))

/-- One `varsFrom` entry (the switch in `makeVariables`, lines 362-371):
`SecretRef` is checked before `ConfigMapRef`; an entry with neither
contributes nothing. -/
def varsFromValues (st : Cluster) (v : VarsFromSource) :
    Except Err (List (String × String) × List String) :=
  match v.secretRef with
  | some ref => secretValues st v.pfx ref
  | none =>
    match v.configMapRef with
    | some ref => configMapValues st v.pfx ref
    | none => .ok ([], [])

/-- One `vars` entry (the switch in `makeVariables`, lines 393-404):
a non-empty literal `value` is expanded against the current environment;
otherwise the secret or configmap key reference is resolved; a var with
neither binds its (empty) literal value.  `ok none` means the variable is
skipped (missing optional reference). -/
def varEval (st : Cluster) (e : Env) (v : Var) : Except Err (Option String) :=
  if v.value ≠ "" then .ok (some (expand v.value e))
  else
    match v.secretValue with
    | some ref => secretValue st ref
    | none =>
      match v.configMapValue with
      | some ref => configMapValue st ref
      | none => .ok (some v.value)

/-- The `varsFrom` loop of `makeVariables` (lines 356-391): each entry
overwrites earlier bindings via `envInsertAll`.  The invalid-key warning
events do not affect the environment. -/
def varsFromEnv (st : Cluster) : List VarsFromSource → Env → Except Err Env
  | [], e => .ok e
  | v :: rest, e =>
    match varsFromValues st v with
    | .error err => .error err
    | .ok sv => varsFromEnv st rest (envInsertAll e sv.1)

/-- The `vars` loop of `makeVariables` (lines 393-414): evaluate each
var against the current environment; a skipped var (`ok none`) inserts
nothing. -/
def varsPhase (st : Cluster) : List Var → Env → Except Err Env
  | [], e => .ok e
  | v :: rest, e =>
    match varEval st e v with
    | .error err => .error err
    | .ok (some val) => varsPhase st rest (envInsert e v.name val)
    | .ok none => varsPhase st rest e

/-- `ConfigMapSecret.makeVariables` (lines 350-417). -/
def makeVariables (st : Cluster) (spec : ConfigMapSecretSpec) : Except Err Env :=
  match varsFromEnv st spec.varsFrom emptyEnv with
  | .error err => .error err
  | .ok e => varsPhase st spec.vars e

/-! ## Condition manager (`pkg/controllers/conditions.go`) -/

/-- `CreateVariablesErrorReason` (conditions.go line 16). -/
def CreateVariablesErrorReason : String := "CreateVariablesError"

/-- The single condition type the controller emits. -/
def RenderFailure : String := "RenderFailure"

/-- `NewConfigMapSecretCondition` (conditions.go lines 20-29): both
timestamps are `now`. -/
def NewConfigMapSecretCondition (typ : String) (status : ConditionStatus)
    (reason message : String) (now : Nat) : Condition :=
  { type := typ, status := status, lastUpdateTime := now,
    lastTransitionTime := now, reason := reason, message := message }

/-- `GetConfigMapSecretCondition` (conditions.go lines 32-39): the first
condition with the given type. -/
def GetConfigMapSecretCondition (status : ConfigMapSecretStatus) (typ : String) :
    Option Condition :=
  status.conditions.find? (fun c => c.type = typ)

/-- `RemoveConfigMapSecretCondition` (conditions.go lines 60-69). -/
def RemoveConfigMapSecretCondition (status : ConfigMapSecretStatus) (typ : String) :
    ConfigMapSecretStatus :=
  { status with conditions := status.conditions.filter (fun c => ¬ c.type = typ) }

/-- `SetConfigMapSecretCondition` (conditions.go lines 43-57). -/
def SetConfigMapSecretCondition (status : ConfigMapSecretStatus) (cond : Condition) :
    ConfigMapSecretStatus :=
  match GetConfigMapSecretCondition status cond.type with
  | some prev =>
    if prev.status = cond.status ∧ prev.reason = cond.reason ∧ prev.message = cond.message then
      status
    else
      let cond :=
        if prev.status = cond.status then
          { cond with lastTransitionTime := prev.lastTransitionTime }
        else cond
      let status := RemoveConfigMapSecretCondition status cond.type
      { status with conditions := status.conditions ++ [cond] }
  | none =>
    let status := RemoveConfigMapSecretCondition status cond.type
    { status with conditions := status.conditions ++ [cond] }

/-! ## Rendering and the owned-secret lifecycle
(src/unnamed/part_005 lines 219-346) -/

/-- `metav1.NewControllerRef(cms, gvk)` with the ConfigMapSecret
group/version/kind. -/
def newControllerRef (cms : ConfigMapSecretObj) : OwnerRef :=
  { apiVersion := "secrets.mz.com/v1alpha1", kind := "ConfigMapSecret",
    name := cms.name, uid := cms.uid,
    controller := some true, blockOwnerDeletion := some true }

/-- `ConfigMapSecret.renderSecret` (lines 312-346): resolve variables,
expand `template.data` and `template.binaryData`, default the name, and
attach the controller owner reference (the scheme lookup of
`SetControllerReference` cannot fail in the model, so every render error
is a `makeVariables` error and carries reason `CreateVariablesError`). -/
def renderSecret (st : Cluster) (cms : ConfigMapSecretObj) : Except Err SecretObj :=
  match makeVariables st cms.spec with
  | .error e => .error e
  | .ok vars =>
    let data :=
      cms.spec.template.data.map (fun kv => (kv.1, expand kv.2 vars))
        ++ cms.spec.template.binaryData.map (fun kv => (kv.1, expand kv.2 vars))
    let meta := cms.spec.template.metadata
    let name := if meta.name = "" then cms.name else meta.name
    .ok { name := name, labels := meta.labels, annotations := meta.annotations,
          ownerReferences := [newControllerRef cms], data := data, type := "Opaque" }

/-- The first owner reference with the controller flag set, with its
index (the loop of `setOwner`, lines 285-299, skips non-controller
entries). -/
def findControllerIdx : List OwnerRef → Option (Nat × OwnerRef)
  | [] => none
  | r :: rs =>
    if r.controller.getD false then some (0, r)
    else (findControllerIdx rs).map (fun p => (p.1 + 1, p.2))

/-- Result of `setOwner`: the possibly-mutated source and secret, and the
`ownerChanged` flag. -/
structure SetOwnerRes where
  cms : ConfigMapSecretObj
  secret : SecretObj
  ownerChanged : Bool
  deriving DecidableEq, Repr

/-- `ConfigMapSecret.setOwner` (lines 279-303).  Note the last branch:
the Go code appends the new owner reference to `secret.OwnerReferences`
but assigns the result to `cms.OwnerReferences`, leaving the secret
unmodified. -/
def setOwner (cms : ConfigMapSecretObj) (secret : SecretObj) : Except Err SetOwnerRes :=
  let owner := newControllerRef cms
  match findControllerIdx secret.ownerReferences with
  | some (i, ref) =>
    if ref.uid ≠ cms.uid then
      .error (.other ("Object " ++ secret.name ++ " is already owned by another "
        ++ ref.kind ++ " controller " ++ ref.name))
    else if ref ≠ owner then
      .ok { cms := cms,
            secret := { secret with ownerReferences := secret.ownerReferences.set i owner },
            ownerChanged := true }
    else
      .ok { cms := cms, secret := secret, ownerChanged := false }
  | none =>
    .ok { cms := { cms with ownerReferences := secret.ownerReferences ++ [owner] },
          secret := secret, ownerChanged := true }

/-- `shouldUpdate` (lines 305-310). -/
def shouldUpdate (a b : SecretObj) : Bool :=
  a.type ≠ b.type || a.annotations ≠ b.annotations || a.labels ≠ b.labels || a.data ≠ b.data

/-- The field overwrite of `sync` before `client.Update` (lines 266-269):
only labels, annotations, data and type are copied onto the found secret. -/
def applyUpdate (found rendered : SecretObj) : SecretObj :=
  { found with labels := rendered.labels, annotations := rendered.annotations,
               data := rendered.data, type := rendered.type }

/-! ## Status sync and the sync body (lines 219-277 and 542-567) -/

/-- Outcome of `syncStatus`: the status that is persisted afterwards,
whether a status `Update` API call was made, and its error if any. -/
structure StatusSyncRes where
  after : ConfigMapSecretStatus
  wrote : Bool
  err : Option Err
  deriving DecidableEq, Repr

/-- `ConfigMapSecret.syncStatus` (lines 550-567): build the new status
from the source's generation and conditions, set the `RenderFailure`
condition, and update only if anything changed.  `statusApiErr` injects
the outcome of the status-subresource `Update` call (`none` = success);
on failure the persisted status is unchanged. -/
def syncStatus (cms : ConfigMapSecretObj) (condStatus : ConditionStatus)
    (reason message : String) (now : Nat) (statusApiErr : Option Err) : StatusSyncRes :=
  let status : ConfigMapSecretStatus :=
    { observedGeneration := cms.generation, conditions := cms.status.conditions }
  let cond := NewConfigMapSecretCondition RenderFailure condStatus reason message now
  let status := SetConfigMapSecretCondition status cond
  if status = cms.status then { after := cms.status, wrote := false, err := none }
  else
    match statusApiErr with
    | some e => { after := cms.status, wrote := true, err := some e }
    | none => { after := status, wrote := true, err := none }

/-- A write performed on the target secret. -/
inductive SecretWrite where
  | create (s : SecretObj)
  | update (s : SecretObj)
  deriving DecidableEq, Repr

/-- Observable outcome of one `sync` call (lines 219-277): the returned
`(requeue, err)` pair, the secret write if any, the persisted source
status, whether a status write happened, and the namespaces whose
`missingValues` counter was incremented. -/
structure SyncRes where
  requeue : Bool
  err : Option Err
  write : Option SecretWrite
  statusAfter : ConfigMapSecretStatus
  statusWrote : Bool
  missingInc : List String
  deriving DecidableEq, Repr

/-- `ConfigMapSecret.sync` (lines 219-277).  On a render error the
deferred closure (lines 223-230) runs the render-failure status sync: if
that status sync fails its error replaces a nil return error and forces
`requeue`.  A configuration error increments the `missingValues` counter
for the source's namespace and converts to `(requeue=true, nil)`; any
other render error is returned as-is.  Otherwise the target secret is
created, or updated when ownership or content changed, and the success
status is synced.  Secret create/update API calls are modelled as
succeeding; `statusApiErr` injects status-update failures. -/
def sync (st : Cluster) (cms : ConfigMapSecretObj) (now : Nat)
    (statusApiErr : Option Err) : SyncRes :=
  match renderSecret st cms with
  | .error e =>
    let s := syncStatus cms .conditionTrue CreateVariablesErrorReason e.msg now statusApiErr
    if isConfigError e then
      { requeue := true, err := s.err, write := none,
        statusAfter := s.after, statusWrote := s.wrote, missingInc := [cms.ns] }
    else
      { requeue := s.err.isSome, err := some e, write := none,
        statusAfter := s.after, statusWrote := s.wrote, missingInc := [] }
  | .ok rendered =>
    match st.secrets rendered.name with
    | .notFound =>
      let s := syncStatus cms .conditionFalse "" "" now statusApiErr
      { requeue := false, err := s.err, write := some (.create rendered),
        statusAfter := s.after, statusWrote := s.wrote, missingInc := [] }
    | .fail msg =>
      { requeue := false, err := some (.other msg), write := none,
        statusAfter := cms.status, statusWrote := false, missingInc := [] }
    | .found found =>
      match setOwner cms found with
      | .error e =>
        { requeue := false, err := some e, write := none,
          statusAfter := cms.status, statusWrote := false, missingInc := [] }
      | .ok res =>
        let write :=
          if res.ownerChanged || shouldUpdate res.secret rendered then
            some (.update (applyUpdate res.secret rendered))
          else none
        let s := syncStatus cms .conditionFalse "" "" now statusApiErr
        { requeue := false, err := s.err, write := write,
          statusAfter := s.after, statusWrote := s.wrote, missingInc := [] }

/-- `ConfigMapSecret.cleanup` (lines 183-217): delete every owned secret
whose name differs from the target name; not-found is skipped; the first
get failure aborts with its error.  Returns the names deleted and the
error.  (Deletes themselves are modelled as succeeding.) -/
def cleanupGo (st : Cluster) (target : String) : List String → List String × Option Err
  | [] => ([], none)
  | n :: rest =>
    if n = target then cleanupGo st target rest
    else
      match st.secrets n with
      | .notFound => cleanupGo st target rest
      | .fail msg => ([], some (.other msg))
      | .found _ =>
        let (ds, e) := cleanupGo st target rest
        (n :: ds, e)

/-- Target secret name: `spec.template.metadata.name`, defaulting to the
source's own name (lines 184-187 and 328-331). -/
def targetName (cms : ConfigMapSecretObj) : String :=
  if cms.spec.template.metadata.name = "" then cms.name else cms.spec.template.metadata.name

/-- `cleanup` over the owned-secret names recorded for the source's UID. -/
def cleanup (st : Cluster) (cms : ConfigMapSecretObj) (owned : List String) :
    List String × Option Err :=
  cleanupGo st (targetName cms) owned

/-- The error combination at the end of `Reconcile` (lines 176-180):
`if cleanupErr := ...; cleanupErr != nil && err == nil { err = cleanupErr }`. -/
def reconcileErr (syncErr cleanupErr : Option Err) : Option Err :=
  match cleanupErr with
  | some ce => if syncErr = none then some ce else syncErr
  | none => syncErr

/-- Outcome of the sync-and-cleanup tail of one `Reconcile` call. -/
structure ReconcileRes where
  requeue : Bool
  err : Option Err
  write : Option SecretWrite
  statusAfter : ConfigMapSecretStatus
  statusWrote : Bool
  deleted : List String
  deriving DecidableEq, Repr

/-- Lines 175-180 of `Reconcile`: run `sync`, then `cleanup`, preferring
the sync error. -/
def reconcileSyncCleanup (st : Cluster) (cms : ConfigMapSecretObj) (owned : List String)
    (now : Nat) (statusApiErr : Option Err) : ReconcileRes :=
  let s := sync st cms now statusApiErr
  let c := cleanup st cms owned
  { requeue := s.requeue, err := reconcileErr s.err c.2, write := s.write,
    statusAfter := s.statusAfter, statusWrote := s.statusWrote, deleted := c.1 }

/-- Apply a secret write to the cluster snapshot (what the API server
stores). -/
def applyWrite (st : Cluster) : Option SecretWrite → Cluster
  | none => st
  | some (.create s) =>
    { st with secrets := fun n => if n = s.name then .found s else st.secrets n }
  | some (.update s) =>
    { st with secrets := fun n => if n = s.name then .found s else st.secrets n }

/-! ## Reference index (`pkg/controllers/refmap.go`)

`map[types.NamespacedName]map[string]bool` becomes
`RefKey → Option (Finset String)`: `none` is an absent row (Go: key not
in the map), `some s` a present row with set `s`. -/

/-- A namespaced name: (namespace, name). -/
abbrev RefKey := String × String

/-- Row lookup with the Go zero-value behaviour (absent row = empty set),
as in `refMap.dsts` / `refMap.srcs`. -/
def rowGet (t : RefKey → Option (Finset String)) (k : RefKey) : Finset String :=
  (t k).getD ∅

/-- Insert into a row, creating it if absent (`refMap.add`, one side). -/
def rowAdd (t : RefKey → Option (Finset String)) (k : RefKey) (x : String) :
    RefKey → Option (Finset String) :=
  fun k' => if k' = k then some (insert x (rowGet t k)) else t k'

/-- Remove from a row, deleting the row eagerly when it empties
(`refMap.rem`, one side: `delete` then `if len == 0 delete row`). -/
def rowRem (t : RefKey → Option (Finset String)) (k : RefKey) (x : String) :
    RefKey → Option (Finset String) :=
  fun k' =>
    if k' = k then
      let s := (rowGet t k).erase x
      if s = ∅ then none else some s
    else t k'

/-- `refMap` (refmap.go lines 11-14). -/
structure RefMap where
  srcDsts : RefKey → Option (Finset String)
  dstSrcs : RefKey → Option (Finset String)

/-- `refMap.dsts` (lines 65-67). -/
def RefMap.dsts (m : RefMap) (ns src : String) : Finset String :=
  rowGet m.srcDsts (ns, src)

/-- `refMap.srcs` (lines 69-71). -/
def RefMap.srcs (m : RefMap) (ns dst : String) : Finset String :=
  rowGet m.dstSrcs (ns, dst)

/-- `refMap.has` (lines 73-75). -/
def RefMap.has (m : RefMap) (ns src dst : String) : Bool :=
  dst ∈ m.dsts ns src

/-- `refMap.add` (lines 29-51). -/
def RefMap.add (m : RefMap) (ns src dst : String) : RefMap :=
  { srcDsts := rowAdd m.srcDsts (ns, src) dst,
    dstSrcs := rowAdd m.dstSrcs (ns, dst) src }

/-- `refMap.rem` (lines 53-63). -/
def RefMap.rem (m : RefMap) (ns src dst : String) : RefMap :=
  { srcDsts := rowRem m.srcDsts (ns, src) dst,
    dstSrcs := rowRem m.dstSrcs (ns, dst) src }

/-- The removal loop of `refMap.set` (lines 17-21), iterating the current
outgoing edges. -/
def remFold (ns src : String) (dsts : Finset String) : List String → RefMap → RefMap
  | [], m => m
  | x :: l, m => remFold ns src dsts l (if x ∈ dsts then m else m.rem ns src x)

/-- The insertion loop of `refMap.set` (lines 22-26). -/
def addFold (ns src : String) : List String → RefMap → RefMap
  | [], m => m
  | x :: l, m => addFold ns src l (if m.has ns src x then m else m.add ns src x)

/-- A concrete enumeration of a set of names (Go map iteration order is
unspecified; the fold results below are independent of the order). -/
def enumNames (s : Finset String) : List String := s.sort (· ≤ ·)

/-- `refMap.set` (lines 16-27). -/
def RefMap.set (m : RefMap) (ns src : String) (dsts : Finset String) : RefMap :=
  addFold ns src (enumNames dsts) (remFold ns src dsts (enumNames (m.dsts ns src)) m)

/-- The zero value of `refMap` (both maps nil). -/
def RefMap.empty : RefMap := { srcDsts := fun _ => none, dstSrcs := fun _ => none }

/-- Well-formedness maintained by `refMap`: the two directions mirror
each other within a namespace, and no empty row is stored.  The zero
value satisfies it and `set` preserves it (proved below). -/
def RefMap.Consistent (m : RefMap) : Prop :=
  (∀ ns src dst, dst ∈ m.dsts ns src ↔ src ∈ m.srcs ns dst)
  ∧ (∀ k, m.srcDsts k ≠ some ∅) ∧ (∀ k, m.dstSrcs k ≠ some ∅)

/-! ## Expansion engine lemmas -/

/-- Characters other than `$` pass through the scanner unchanged. -/
theorem expandChars_append_no_dollar {l : List Char} (m : String → Option String)
    (h : '$' ∉ l) (r : List Char) :
    expandChars m (l ++ r) = l ++ expandChars m r := by
  induction l with
  | nil => simp
  | cons c l ih =>
    simp only [List.mem_cons, not_or] at h
    have hc : ¬ c = '$' := fun hh => h.1 hh.symm
    rw [List.cons_append, expandChars_cons_ne m hc, ih h.2]
    rfl

/-- `splitRef` splits at the first `)`. -/
theorem splitRef_append {name : List Char} (h : ')' ∉ name) (r : List Char) :
    splitRef (name ++ ')' :: r) = some (name, r) := by
  induction name with
  | nil => simp [splitRef]
  | cons c l ih =>
    simp only [List.mem_cons, not_or] at h
    have hc : ¬ c = ')' := fun hh => h.1 hh.symm
    rw [List.cons_append, splitRef, if_neg hc, ih h.2]
    rfl

/-- C9.  For every template string and mapping: `$$` maps to a single
`$`; `$$(X)` maps to the literal `$(X)` whether or not `X` is bound; an
unescaped `$(NAME)` becomes the mapped value when bound and stays
verbatim when unbound; and expansion is single pass — in the bound case
the value `v` is emitted verbatim (never re-scanned), so substituted
values are not re-expanded. -/
theorem expand_spec_rules (m : String → Option String) (s name v : String)
    (hd : '$' ∉ name.data) (hp : ')' ∉ name.data) :
    (expand ("$$" ++ s) m = "$" ++ expand s m)
    ∧ (expand ("$$(" ++ name ++ ")" ++ s) m = "$(" ++ name ++ ")" ++ expand s m)
    ∧ (m name = some v → expand ("$(" ++ name ++ ")" ++ s) m = v ++ expand s m)
    ∧ (m name = none → expand ("$(" ++ name ++ ")" ++ s) m = "$(" ++ name ++ ")" ++ expand s m) := by
  have hsp : splitRef (name.data ++ ')' :: s.data) = some (name.data, s.data) :=
    splitRef_append hp s.data
  have hd2 : ("$$" ++ s).data = '$' :: '$' :: s.data := by
    rw [String.data_append]; rfl
  have hd3 : ("$$(" ++ name ++ ")" ++ s).data
      = '$' :: '$' :: (('(' :: name.data ++ [')']) ++ s.data) := by
    repeat rw [String.data_append]
    simp
  have hd4 : ("$(" ++ name ++ ")" ++ s).data = '$' :: '(' :: (name.data ++ ')' :: s.data) := by
    repeat rw [String.data_append]
    simp
  have hnd : '$' ∉ '(' :: name.data ++ [')'] := by
    intro hmem
    rcases List.mem_cons.mp hmem with h | h
    · exact absurd h (by decide)
    · rcases List.mem_append.mp h with h | h
      · exact hd h
      · exact absurd h (by decide)
  refine ⟨?_, ?_, ?_, ?_⟩
  · show String.mk (expandChars m ("$$" ++ s).data) = "$" ++ String.mk (expandChars m s.data)
    rw [hd2, expandChars_dollar_dollar]
    rfl
  · show String.mk (expandChars m ("$$(" ++ name ++ ")" ++ s).data)
      = "$(" ++ name ++ ")" ++ String.mk (expandChars m s.data)
    rw [hd3, expandChars_dollar_dollar, expandChars_append_no_dollar m hnd s.data]
    rfl
  · intro hm
    show String.mk (expandChars m ("$(" ++ name ++ ")" ++ s).data)
      = v ++ String.mk (expandChars m s.data)
    rw [hd4, expandChars_ref m hsp, emitRef]
    have hmk : String.mk name.data = name := rfl
    rw [hmk, hm]
    rfl
  · intro hm
    show String.mk (expandChars m ("$(" ++ name ++ ")" ++ s).data)
      = "$(" ++ name ++ ")" ++ String.mk (expandChars m s.data)
    rw [hd4, expandChars_ref m hsp, emitRef]
    have hmk : String.mk name.data = name := rfl
    rw [hmk, hm]
    rfl

/-- Witness for C9 at a concrete mapping: `X ↦ a$(Y)`, `Y` unbound.  The
bound case substitutes without re-expanding `$(Y)`. -/
theorem expand_spec_rules_w :
    expand "$$(X)" (fun n => if n = "X" then some "a$(Y)" else none) = "$(X)"
    ∧ expand "$(X)-$(Y)" (fun n => if n = "X" then some "a$(Y)" else none) = "a$(Y)-$(Y)" := by
  constructor
  · have h2 := (expand_spec_rules (fun n => if n = "X" then some "a$(Y)" else none)
      "" "X" "a$(Y)" (by decide) (by decide)).2.1
    have he : ("$$(X)" : String) = "$$(" ++ "X" ++ ")" ++ "" := by decide
    rw [he, h2]
    decide
  · have h3 := (expand_spec_rules (fun n => if n = "X" then some "a$(Y)" else none)
      "-$(Y)" "X" "a$(Y)" (by decide) (by decide)).2.2.1 (by decide)
    have he : ("$(X)-$(Y)" : String) = "$(" ++ "X" ++ ")" ++ "-$(Y)" := by decide
    rw [he, h3]
    decide

/-! ## Resolver lemmas: literal priority (C10) and missing-reference
semantics (C5) -/

/-- C10.  In the `vars` switch, a non-empty literal `value` wins: it is
expanded against the current environment and the secret/configmap
reference is never consulted (the result is independent of the cluster
and of the references).  An empty `value` falls through to the secret
reference, then to the configmap reference; with neither, the variable
binds the empty string. -/
theorem varEval_literal_priority (st : Cluster) (e : Env) (v : Var) :
    (v.value ≠ "" →
      varEval st e v = .ok (some (expand v.value e))
      ∧ ∀ (st' : Cluster) (sv cv : Option KeySelector),
          varEval st' e { v with secretValue := sv, configMapValue := cv } = varEval st e v)
    ∧ (v.value = "" → ∀ ref, v.secretValue = some ref →
        varEval st e v = secretValue st ref)
    ∧ (v.value = "" → v.secretValue = none → ∀ ref, v.configMapValue = some ref →
        varEval st e v = configMapValue st ref)
    ∧ (v.value = "" → v.secretValue = none → v.configMapValue = none →
        varEval st e v = .ok (some "")) := by
  refine ⟨fun hv => ⟨?_, fun st' sv cv => ?_⟩, fun hv ref hs => ?_, fun hv hs ref hc => ?_,
    fun hv hs hc => ?_⟩
  · simp [varEval, hv]
  · simp [varEval, hv]
  · simp [varEval, hv, hs]
  · simp [varEval, hv, hs, hc]
  · simp [varEval, hv, hs, hc]

/-- Witness for C10: the var carries both the literal `"x"` and a secret
reference; the two clusters disagree about that secret, yet the result
is the expanded literal in both. -/
theorem varEval_literal_priority_w :
    varEval { secrets := fun _ => .notFound, configMaps := fun _ => .notFound } emptyEnv
        { name := "A", value := "x",
          secretValue := some { name := "s", key := "k", optional := none },
          configMapValue := none }
      = .ok (some "x")
    ∧ varEval { secrets := fun _ => .fail "down", configMaps := fun _ => .notFound } emptyEnv
        { name := "A", value := "x",
          secretValue := some { name := "s", key := "k", optional := none },
          configMapValue := none }
      = .ok (some "x") := by
  constructor
  · have h := (varEval_literal_priority
      { secrets := fun _ => .notFound, configMaps := fun _ => .notFound } emptyEnv
      { name := "A", value := "x",
        secretValue := some { name := "s", key := "k", optional := none },
        configMapValue := none }).1 (by decide)
    rw [h.1]
    exact congrArg (fun z => (Except.ok (some z) : Except Err (Option String)))
      (by decide : expand "x" emptyEnv = "x")
  · have h := (varEval_literal_priority
      { secrets := fun _ => .notFound, configMaps := fun _ => .notFound } emptyEnv
      { name := "A", value := "x",
        secretValue := some { name := "s", key := "k", optional := none },
        configMapValue := none }).1 (by decide)
    have h2 := h.2 { secrets := fun _ => .fail "down", configMaps := fun _ => .notFound }
      (some { name := "s", key := "k", optional := none }) none
    rw [h2, h.1]
    exact congrArg (fun z => (Except.ok (some z) : Except Err (Option String)))
      (by decide : expand "x" emptyEnv = "x")

/-- C5.  Missing-reference semantics of the resolver: an absent required
object is a configuration error and an absent optional object is a skip,
both for key references (`secretValue` / `configMapValue`) and for
`varsFrom` sources (`secretValues` / `configMapValues`); a key missing
from a present object is a configuration error exactly when required,
with an optional missing key binding nothing; and configmap lookups
consult `data` before `binaryData`. -/
theorem missing_reference_semantics (st : Cluster) (ref : KeySelector) :
    (st.secrets ref.name = .notFound →
        (ref.optional.getD false = true → secretValue st ref = .ok none)
      ∧ (ref.optional.getD false = false →
          ∃ msg, secretValue st ref = .error (.config msg)))
    ∧ (∀ s, st.secrets ref.name = .found s → lookupKV s.data ref.key = none →
        (ref.optional.getD false = true → secretValue st ref = .ok none)
      ∧ (ref.optional.getD false = false →
          ∃ msg, secretValue st ref = .error (.config msg)))
    ∧ (∀ s val, st.secrets ref.name = .found s → lookupKV s.data ref.key = some val →
        secretValue st ref = .ok (some val))
    ∧ (st.configMaps ref.name = .notFound →
        (ref.optional.getD false = true → configMapValue st ref = .ok none)
      ∧ (ref.optional.getD false = false →
          ∃ msg, configMapValue st ref = .error (.config msg)))
    ∧ (∀ c, st.configMaps ref.name = .found c → lookupKV c.data ref.key = none →
        lookupKV c.binaryData ref.key = none →
        (ref.optional.getD false = true → configMapValue st ref = .ok none)
      ∧ (ref.optional.getD false = false →
          ∃ msg, configMapValue st ref = .error (.config msg)))
    ∧ (∀ c val, st.configMaps ref.name = .found c → lookupKV c.data ref.key = some val →
        configMapValue st ref = .ok (some val))
    ∧ (∀ c val, st.configMaps ref.name = .found c → lookupKV c.data ref.key = none →
        lookupKV c.binaryData ref.key = some val → configMapValue st ref = .ok (some val))
    ∧ (∀ (pfx : String) (r : VarsSourceRef), st.secrets r.name = .notFound →
        (r.optional.getD false = true → secretValues st pfx r = .ok ([], []))
      ∧ (r.optional.getD false = false →
          ∃ msg, secretValues st pfx r = .error (.config msg)))
    ∧ (∀ (pfx : String) (r : VarsSourceRef), st.configMaps r.name = .notFound →
        (r.optional.getD false = true → configMapValues st pfx r = .ok ([], []))
      ∧ (r.optional.getD false = false →
          ∃ msg, configMapValues st pfx r = .error (.config msg))) := by
  refine ⟨fun h => ⟨fun hopt => ?_, fun hopt => ?_⟩,
    fun s h hk => ⟨fun hopt => ?_, fun hopt => ?_⟩,
    fun s val h hk => ?_,
    fun h => ⟨fun hopt => ?_, fun hopt => ?_⟩,
    fun c h hk hb => ⟨fun hopt => ?_, fun hopt => ?_⟩,
    fun c val h hk => ?_,
    fun c val h hk hb => ?_,
    fun pfx r h => ⟨fun hopt => ?_, fun hopt => ?_⟩,
    fun pfx r h => ⟨fun hopt => ?_, fun hopt => ?_⟩⟩
  all_goals
    simp_all [secretValue, configMapValue, secretValues, configMapValues,
      secretGet, configMapGet]

/-- Witness for C5: a required missing secret is a configuration error,
an optional missing key is a skip, and `data` shadows `binaryData` in a
configmap lookup. -/
theorem missing_reference_semantics_w :
    (∃ msg, secretValue
        { secrets := fun _ => .notFound, configMaps := fun _ => .notFound }
        { name := "s", key := "k", optional := none } = .error (.config msg))
    ∧ configMapValue
        { secrets := fun _ => .notFound,
          configMaps := fun n =>
            if n = "c" then
              .found { name := "c", data := [("k", "d")], binaryData := [("k", "b")] }
            else .notFound }
        { name := "c", key := "k", optional := none } = .ok (some "d") := by
  constructor
  · exact (missing_reference_semantics
      { secrets := fun _ => .notFound, configMaps := fun _ => .notFound }
      { name := "s", key := "k", optional := none }).1 rfl |>.2 rfl
  · exact (missing_reference_semantics
      { secrets := fun _ => .notFound,
        configMaps := fun n =>
          if n = "c" then
            .found { name := "c", data := [("k", "d")], binaryData := [("k", "b")] }
          else .notFound }
      { name := "c", key := "k", optional := none }).2.2.2.2.2.1
      { name := "c", data := [("k", "d")], binaryData := [("k", "b")] } "d" rfl rfl

/-! ## C7: error preference between sync and cleanup -/

/-- C7.  When both the sync body and the stale-secret cleanup fail, the
`Reconcile` tail returns the sync error; the cleanup error is returned
exactly when the sync body reported none. -/
theorem reconcile_error_preference (st : Cluster) (cms : ConfigMapSecretObj)
    (owned : List String) (now : Nat) (statusApiErr : Option Err) (e : Err) :
    ((sync st cms now statusApiErr).err = some e →
      (reconcileSyncCleanup st cms owned now statusApiErr).err = some e)
    ∧ ((sync st cms now statusApiErr).err = none →
      (reconcileSyncCleanup st cms owned now statusApiErr).err = (cleanup st cms owned).2) := by
  constructor
  · intro hs
    unfold reconcileSyncCleanup reconcileErr
    cases hc : (cleanup st cms owned).2 <;> simp [hs, hc]
  · intro hs
    unfold reconcileSyncCleanup reconcileErr
    cases hc : (cleanup st cms owned).2 <;> simp [hs, hc]

/-- Concrete fixture for the C7 witness: rendering succeeds, the get of
the target secret fails transiently (sync error), and the get of a stale
owned secret also fails (cleanup error). -/
def cmsC7 : ConfigMapSecretObj :=
  { name := "app", ns := "default", uid := "u1", generation := 1, ownerReferences := [],
    spec := { template := { metadata := { name := "", labels := [], annotations := [] },
                            data := [], binaryData := [] },
              varsFrom := [], vars := [] },
    status := { observedGeneration := 0, conditions := [] } }

def stC7 : Cluster :=
  { secrets := fun n => if n = "app" then .fail "get app failed"
               else if n = "stale" then .fail "get stale failed"
               else .notFound,
    configMaps := fun _ => .notFound }

/-- Witness for C7: both sync and cleanup fail; the combined error is the
sync error, and with a healthy sync the cleanup error surfaces. -/
theorem reconcile_error_preference_w :
    (reconcileSyncCleanup stC7 cmsC7 ["stale"] 0 none).err = some (.other "get app failed")
    ∧ (cleanup stC7 cmsC7 ["stale"]).2 = some (.other "get stale failed") := by
  constructor
  · exact (reconcile_error_preference stC7 cmsC7 ["stale"] 0 none
      (.other "get app failed")).1 (by decide)
  · decide

/-! ## C1: ownership takeover drops the owner reference (code bug) -/

/-- Fixture for C1/C6: a source with a static one-key template and no
variables. -/
def cmsTake : ConfigMapSecretObj :=
  { name := "app", ns := "default", uid := "uid-1", generation := 1, ownerReferences := [],
    spec := { template := { metadata := { name := "", labels := [], annotations := [] },
                            data := [("k", "v")], binaryData := [] },
              varsFrom := [], vars := [] },
    status := { observedGeneration := 0, conditions := [] } }

/-- Fixture for C1/C6: a pre-existing target secret with no controller
owner reference. -/
def secretTake : SecretObj :=
  { name := "app", labels := [], annotations := [], ownerReferences := [],
    data := [("k", "old")], type := "Opaque" }

def stTake : Cluster :=
  { secrets := fun n => if n = "app" then .found secretTake else .notFound,
    configMaps := fun _ => .notFound }

/-- C1 (code bug).  On takeover of a secret with no controller owner,
`setOwner` reports `ownerChanged = true` but appends the new owner
reference to `cms.OwnerReferences` instead of `secret.OwnerReferences`
(src/unnamed/part_005 line 301), so the secret it returns still has no
owner reference, and the secret stored by the subsequent update still
has no controller owner entry for the source UID. -/
theorem setOwner_takeover_drops_owner :
    (setOwner cmsTake secretTake
      = .ok { cms := { cmsTake with ownerReferences := [newControllerRef cmsTake] },
              secret := secretTake, ownerChanged := true })
    ∧ (∃ s, (sync stTake cmsTake 0 none).write = some (.update s)
        ∧ s.ownerReferences = []
        ∧ findControllerIdx s.ownerReferences = none) := by
  constructor
  · decide
  · refine ⟨{ secretTake with data := [("k", "v")] }, by decide, by decide, by decide⟩

/-! ## C3: the condition manager -/

/-- Number of conditions of a given type in a list. -/
def countType (l : List Condition) (t : String) : Nat :=
  l.countP (fun c => c.type = t)

theorem countType_pos_of_mem {l : List Condition} {c : Condition} {t : String}
    (hc : c ∈ l) (ht : c.type = t) : 1 ≤ countType l t := by
  unfold countType
  have : 0 < l.countP (fun c => decide (c.type = t)) :=
    List.countP_pos_iff.mpr ⟨c, hc, by simp [ht]⟩
  omega

/-- With at most one condition of the type present, the first-match
lookup finds any same-type member. -/
theorem find_eq_of_count_le_one {l : List Condition} {c : Condition} {t : String}
    (huniq : countType l t ≤ 1) (hc : c ∈ l) (ht : c.type = t) :
    l.find? (fun x => x.type = t) = some c := by
  induction l with
  | nil => cases hc
  | cons a l ih =>
    rcases List.mem_cons.mp hc with rfl | hmem
    · rw [List.find?_cons_of_pos _ (by simp [ht])]
    · by_cases hat : a.type = t
      · exfalso
        have h1 : 1 ≤ countType l t := countType_pos_of_mem hmem ht
        have : countType (a :: l) t = countType l t + 1 := by
          simp [countType, List.countP_cons, hat]
        omega
      · rw [List.find?_cons_of_neg _ (by simp [hat])]
        have : countType (a :: l) t = countType l t := by
          simp [countType, List.countP_cons, hat]
        exact ih (by omega) hmem

theorem countType_removed (s : ConfigMapSecretStatus) (t : String) :
    countType (RemoveConfigMapSecretCondition s t).conditions t = 0 := by
  simp only [countType, RemoveConfigMapSecretCondition, List.countP_eq_zero]
  intro c hcmem
  have := List.of_mem_filter hcmem
  simpa using this

/-- C3.  For a status respecting the data-model invariant (at most one
condition of the type — spec invariant 4, established by `set` itself):
an existing same-type condition with equal status, reason and message
makes the call a no-op; when only the status matches, the previous
`lastTransitionTime` is copied onto the new condition; and afterwards at
most one condition of the type remains (`set` preserves the invariant
from any starting point, and establishes exactly one whenever it
modifies the list). -/
theorem setCondition_spec (status : ConfigMapSecretStatus) (cond : Condition)
    (huniq : countType status.conditions cond.type ≤ 1) :
    (∀ prev ∈ status.conditions, prev.type = cond.type →
       prev.status = cond.status → prev.reason = cond.reason → prev.message = cond.message →
       SetConfigMapSecretCondition status cond = status)
    ∧ (∀ prev ∈ status.conditions, prev.type = cond.type →
       prev.status = cond.status → ¬(prev.reason = cond.reason ∧ prev.message = cond.message) →
       (SetConfigMapSecretCondition status cond).conditions
         = (RemoveConfigMapSecretCondition status cond.type).conditions
             ++ [{ cond with lastTransitionTime := prev.lastTransitionTime }])
    ∧ countType (SetConfigMapSecretCondition status cond).conditions cond.type ≤ 1 := by
  refine ⟨fun prev hmem ht hs hr hm => ?_, fun prev hmem ht hs hrm => ?_, ?_⟩
  · have hfind := find_eq_of_count_le_one huniq hmem ht
    simp only [SetConfigMapSecretCondition, GetConfigMapSecretCondition, hfind]
    rw [if_pos ⟨hs, hr, hm⟩]
  · have hfind := find_eq_of_count_le_one huniq hmem ht
    simp only [SetConfigMapSecretCondition, GetConfigMapSecretCondition, hfind]
    rw [if_neg (fun hall => hrm ⟨hall.2.1, hall.2.2⟩), if_pos hs]
  · cases hfind : GetConfigMapSecretCondition status cond.type with
    | none =>
      simp only [SetConfigMapSecretCondition, hfind]
      have h0 := countType_removed status cond.type
      simp_all [countType, List.countP_append, List.countP_cons]
    | some prev =>
      simp only [SetConfigMapSecretCondition, hfind]
      by_cases heq : prev.status = cond.status ∧ prev.reason = cond.reason
        ∧ prev.message = cond.message
      · rw [if_pos heq]
        exact huniq
      · rw [if_neg heq]
        have h0 := countType_removed status cond.type
        by_cases hst : prev.status = cond.status <;>
          simp_all [countType, List.countP_append, List.countP_cons]

/-- Fixtures for the C3 witness: one existing `RenderFailure` condition;
the new condition has the same status but a different reason. -/
def statusC3 : ConfigMapSecretStatus :=
  { observedGeneration := 0,
    conditions := [{ type := "RenderFailure", status := .conditionTrue, lastUpdateTime := 5,
                     lastTransitionTime := 3, reason := "r", message := "m" }] }

def condC3 : Condition :=
  { type := "RenderFailure", status := .conditionTrue, lastUpdateTime := 9,
    lastTransitionTime := 9, reason := "r2", message := "m" }

def prevC3 : Condition :=
  { type := "RenderFailure", status := .conditionTrue, lastUpdateTime := 5,
    lastTransitionTime := 3, reason := "r", message := "m" }

/-- Witness for C3: the transition time of the previous condition (3) is
kept, and the result has exactly one condition of the type. -/
theorem setCondition_spec_w :
    (SetConfigMapSecretCondition statusC3 condC3).conditions
      = [{ condC3 with lastTransitionTime := 3 }]
    ∧ countType (SetConfigMapSecretCondition statusC3 condC3).conditions "RenderFailure" ≤ 1 := by
  have h := setCondition_spec statusC3 condC3 (by decide)
  constructor
  · have h2 := h.2.1 prevC3 (by decide) (by decide) (by decide) (by decide)
    rw [h2]
    decide
  · exact h.2.2

/-! ## C2: propagation policy for render failures -/

/-- After `SetConfigMapSecretCondition`, a condition with the new
condition's type, status, reason and message is retrievable (either the
already-equal previous one, or the newly appended one). -/
theorem getCond_set (s : ConfigMapSecretStatus) (c : Condition) :
    ∃ fc, GetConfigMapSecretCondition (SetConfigMapSecretCondition s c) c.type = some fc
      ∧ fc.status = c.status ∧ fc.reason = c.reason ∧ fc.message = c.message := by
  have hfilter : ∀ t, (s.conditions.filter (fun x => ¬ x.type = t)).find?
      (fun x => x.type = t) = none := by
    intro t
    rw [List.find?_eq_none]
    intro x hx
    have := List.of_mem_filter hx
    simpa using this
  cases hfind : GetConfigMapSecretCondition s c.type with
  | none =>
    have hfind' : s.conditions.find? (fun x => x.type = c.type) = none := hfind
    refine ⟨c, ?_, rfl, rfl, rfl⟩
    simp only [SetConfigMapSecretCondition, GetConfigMapSecretCondition,
      RemoveConfigMapSecretCondition, hfind', List.find?_append, hfilter]
    simp
  | some prev =>
    have hfind' : s.conditions.find? (fun x => x.type = c.type) = some prev := hfind
    by_cases heq : prev.status = c.status ∧ prev.reason = c.reason ∧ prev.message = c.message
    · refine ⟨prev, ?_, heq.1, heq.2.1, heq.2.2⟩
      simp only [SetConfigMapSecretCondition, GetConfigMapSecretCondition, hfind']
      rw [if_pos heq]
      exact hfind
    · by_cases hst : prev.status = c.status
      · refine ⟨{ c with lastTransitionTime := prev.lastTransitionTime }, ?_, rfl, rfl, rfl⟩
        simp only [SetConfigMapSecretCondition, GetConfigMapSecretCondition,
          RemoveConfigMapSecretCondition, hfind', List.find?_append, hfilter]
        rw [if_neg heq, if_pos hst]
        simp only [List.find?_append, hfilter]
        simp
      · refine ⟨c, ?_, rfl, rfl, rfl⟩
        simp only [SetConfigMapSecretCondition, GetConfigMapSecretCondition,
          RemoveConfigMapSecretCondition, hfind', List.find?_append, hfilter]
        rw [if_neg heq, if_neg hst]
        simp only [List.find?_append, hfilter]
        simp

/-- With a healthy status API, `syncStatus` persists exactly the status
built by the condition manager and reports no error. -/
theorem syncStatus_healthy (cms : ConfigMapSecretObj) (cs : ConditionStatus)
    (reason message : String) (now : Nat) :
    (syncStatus cms cs reason message now none).after
      = SetConfigMapSecretCondition
          { observedGeneration := cms.generation, conditions := cms.status.conditions }
          (NewConfigMapSecretCondition RenderFailure cs reason message now)
    ∧ (syncStatus cms cs reason message now none).err = none := by
  unfold syncStatus
  by_cases hkeep : SetConfigMapSecretCondition
      { observedGeneration := cms.generation, conditions := cms.status.conditions }
      (NewConfigMapSecretCondition RenderFailure cs reason message now) = cms.status
  · rw [if_pos hkeep]
    exact ⟨hkeep.symm, rfl⟩
  · rw [if_neg hkeep]
    exact ⟨rfl, rfl⟩

/-- C2.  With a healthy status API, a render failure that is a
configuration error makes `sync` return `(requeue = true, err = nil)`,
increment the namespace-labelled missing-values counter exactly once,
and record the `RenderFailure` condition with status `True` and reason
`CreateVariablesError`; a render failure that is not a configuration
error is returned as-is with `requeue = false`. -/
theorem sync_render_failure_policy (st : Cluster) (cms : ConfigMapSecretObj)
    (now : Nat) (e : Err) (hr : renderSecret st cms = .error e) :
    (isConfigError e = true →
        (sync st cms now none).requeue = true
      ∧ (sync st cms now none).err = none
      ∧ (sync st cms now none).missingInc = [cms.ns]
      ∧ ∃ c, GetConfigMapSecretCondition (sync st cms now none).statusAfter RenderFailure
            = some c
          ∧ c.status = .conditionTrue ∧ c.reason = CreateVariablesErrorReason)
    ∧ (isConfigError e = false →
        (sync st cms now none).requeue = false
      ∧ (sync st cms now none).err = some e
      ∧ (sync st cms now none).missingInc = []) := by
  have hs := syncStatus_healthy cms .conditionTrue CreateVariablesErrorReason e.msg now
  constructor
  · intro hcfg
    have hsync : sync st cms now none
        = { requeue := true,
            err := (syncStatus cms .conditionTrue CreateVariablesErrorReason e.msg now none).err,
            write := none,
            statusAfter :=
              (syncStatus cms .conditionTrue CreateVariablesErrorReason e.msg now none).after,
            statusWrote :=
              (syncStatus cms .conditionTrue CreateVariablesErrorReason e.msg now none).wrote,
            missingInc := [cms.ns] } := by
      simp only [sync, hr, hcfg, if_true]
    refine ⟨by rw [hsync], by rw [hsync]; exact hs.2, by rw [hsync], ?_⟩
    obtain ⟨fc, hget, hfst, hfre, _⟩ := getCond_set
      { observedGeneration := cms.generation, conditions := cms.status.conditions }
      (NewConfigMapSecretCondition RenderFailure .conditionTrue CreateVariablesErrorReason
        e.msg now)
    refine ⟨fc, ?_, by exact hfst, by exact hfre⟩
    rw [hsync]
    show GetConfigMapSecretCondition
      (syncStatus cms .conditionTrue CreateVariablesErrorReason e.msg now none).after
      RenderFailure = some fc
    rw [hs.1]
    exact hget
  · intro hcfg
    have hsync : sync st cms now none
        = { requeue :=
              (syncStatus cms .conditionTrue CreateVariablesErrorReason e.msg now none).err.isSome,
            err := some e,
            write := none,
            statusAfter :=
              (syncStatus cms .conditionTrue CreateVariablesErrorReason e.msg now none).after,
            statusWrote :=
              (syncStatus cms .conditionTrue CreateVariablesErrorReason e.msg now none).wrote,
            missingInc := [] } := by
      simp only [sync, hr, hcfg, if_false, Bool.false_eq_true]
    refine ⟨?_, by rw [hsync], by rw [hsync]⟩
    rw [hsync]
    show (syncStatus cms .conditionTrue CreateVariablesErrorReason e.msg now none).err.isSome
      = false
    rw [hs.2]
    rfl

/-- Fixtures for the C2 witness: a var references a required key of a
secret that does not exist. -/
def cmsC2 : ConfigMapSecretObj :=
  { name := "app", ns := "default", uid := "u1", generation := 4, ownerReferences := [],
    spec := { template := { metadata := { name := "", labels := [], annotations := [] },
                            data := [("a", "$(V)")], binaryData := [] },
              varsFrom := [],
              vars := [{ name := "V", value := "",
                         secretValue := some { name := "s", key := "k", optional := none },
                         configMapValue := none }] },
    status := { observedGeneration := 0, conditions := [] } }

def stC2 : Cluster :=
  { secrets := fun _ => .notFound, configMaps := fun _ => .notFound }

/-- Witness for C2: the missing required secret leads to
`(requeue = true, err = nil)`, one counter increment for `default`, and
a recorded `RenderFailure=True/CreateVariablesError` condition. -/
theorem sync_render_failure_policy_w :
    (sync stC2 cmsC2 7 none).requeue = true
    ∧ (sync stC2 cmsC2 7 none).err = none
    ∧ (sync stC2 cmsC2 7 none).missingInc = ["default"]
    ∧ ∃ c, GetConfigMapSecretCondition (sync stC2 cmsC2 7 none).statusAfter RenderFailure
          = some c
        ∧ c.status = .conditionTrue ∧ c.reason = CreateVariablesErrorReason := by
  have h := (sync_render_failure_policy stC2 cmsC2 7 (.config "secrets s not found")
    (by decide)).1 (by decide)
  exact ⟨h.1, h.2.1, h.2.2.1, h.2.2.2⟩

/-! ## C4: overwrite precedence in the resolver -/

/-- A `vars` entry that resolves to "skip" (missing optional reference:
`found = false` in the Go switch).  Skipping is independent of the
environment, so it is stated against the empty environment. -/
abbrev varSkip (st : Cluster) (v : Var) : Prop :=
  varEval st emptyEnv v = .ok none

/-- Evaluation of a var with an empty literal does not depend on the
environment (only literal expansion reads it). -/
theorem varEval_env_indep {st : Cluster} {v : Var} (hv : v.value = "") (e e' : Env) :
    varEval st e v = varEval st e' v := by
  simp [varEval, hv]

/-- A skipping var evaluates to `ok none` in every environment. -/
theorem varSkip_eval {st : Cluster} {v : Var} (h : varSkip st v) (e : Env) :
    varEval st e v = .ok none := by
  by_cases hv : v.value = ""
  · rw [varEval_env_indep hv e emptyEnv]
    exact h
  · exfalso
    unfold varSkip varEval at h
    rw [if_pos hv] at h
    cases h

/-- Conversely, `ok none` in any environment means the var skips. -/
theorem varSkip_of_eval {st : Cluster} {v : Var} {e : Env}
    (h : varEval st e v = .ok none) : varSkip st v := by
  by_cases hv : v.value = ""
  · unfold varSkip
    rw [varEval_env_indep hv emptyEnv e]
    exact h
  · exfalso
    unfold varEval at h
    rw [if_pos hv] at h
    cases h

/-- Lookup through a block insertion: the last binding in the block wins,
otherwise the previous environment answers. -/
theorem envInsertAll_apply (e : Env) (kvs : List (String × String)) (n : String) :
    envInsertAll e kvs n
      = match lookupLastKV kvs n with
        | some v => some v
        | none => e n := by
  induction kvs generalizing e with
  | nil => rfl
  | cons kv rest ih =>
    show envInsertAll (envInsert e kv.1 kv.2) rest n = _
    rw [ih]
    cases hrest : lookupLastKV rest n with
    | some v => simp [lookupLastKV, hrest]
    | none =>
      by_cases hk : kv.1 = n
      · simp [lookupLastKV, hrest, envInsert, hk]
      · have hk' : ¬ n = kv.1 := fun h => hk h.symm
        simp [lookupLastKV, hrest, envInsert, hk, hk']

/-- `varsPhase` over an append runs the two halves in sequence. -/
theorem varsPhase_append (st : Cluster) (l₁ l₂ : List Var) (e : Env) :
    varsPhase st (l₁ ++ l₂) e
      = match varsPhase st l₁ e with
        | .error err => .error err
        | .ok e' => varsPhase st l₂ e' := by
  induction l₁ generalizing e with
  | nil => rfl
  | cons v rest ih =>
    show (match varEval st e v with
      | Except.error err => Except.error err
      | Except.ok (some val) => varsPhase st (rest ++ l₂) (envInsert e v.name val)
      | Except.ok none => varsPhase st (rest ++ l₂) e) = _
    cases hv : varEval st e v with
    | error err =>
      show Except.error err = _
      unfold varsPhase
      rw [hv]
    | ok o =>
      cases o with
      | some val =>
        show varsPhase st (rest ++ l₂) (envInsert e v.name val) = _
        rw [ih]
        have h0 : varsPhase st (v :: rest) e
            = match varEval st e v with
              | Except.error err => Except.error err
              | Except.ok (some val) => varsPhase st rest (envInsert e v.name val)
              | Except.ok none => varsPhase st rest e := rfl
        rw [show varsPhase st (v :: rest) e
            = varsPhase st rest (envInsert e v.name val) from by rw [h0, hv]]
      | none =>
        show varsPhase st (rest ++ l₂) e = _
        rw [ih]
        have h0 : varsPhase st (v :: rest) e
            = match varEval st e v with
              | Except.error err => Except.error err
              | Except.ok (some val) => varsPhase st rest (envInsert e v.name val)
              | Except.ok none => varsPhase st rest e := rfl
        rw [show varsPhase st (v :: rest) e = varsPhase st rest e from by rw [h0, hv]]

/-- `varsFromEnv` over an append runs the two halves in sequence. -/
theorem varsFromEnv_append (st : Cluster) (l₁ l₂ : List VarsFromSource) (e : Env) :
    varsFromEnv st (l₁ ++ l₂) e
      = match varsFromEnv st l₁ e with
        | .error err => .error err
        | .ok e' => varsFromEnv st l₂ e' := by
  induction l₁ generalizing e with
  | nil => rfl
  | cons v rest ih =>
    show (match varsFromValues st v with
      | Except.error err => Except.error err
      | Except.ok sv => varsFromEnv st (rest ++ l₂) (envInsertAll e sv.1)) = _
    cases hv : varsFromValues st v with
    | error err =>
      show Except.error err = _
      unfold varsFromEnv
      rw [hv]
    | ok sv =>
      show varsFromEnv st (rest ++ l₂) (envInsertAll e sv.1) = _
      rw [ih]
      have h0 : varsFromEnv st (v :: rest) e
          = match varsFromValues st v with
            | Except.error err => Except.error err
            | Except.ok sv => varsFromEnv st rest (envInsertAll e sv.1) := rfl
      rw [show varsFromEnv st (v :: rest) e
          = varsFromEnv st rest (envInsertAll e sv.1) from by rw [h0, hv]]

/-- Names never bound by a `vars` block flow through it unchanged. -/
theorem varsPhase_skip_name {st : Cluster} {l : List Var} {e e' : Env} {n : String}
    (hok : varsPhase st l e = .ok e')
    (hskip : ∀ v ∈ l, v.name = n → varSkip st v) : e' n = e n := by
  induction l generalizing e with
  | nil =>
    cases hok
    rfl
  | cons v rest ih =>
    unfold varsPhase at hok
    cases hv : varEval st e v with
    | error err => rw [hv] at hok; cases hok
    | ok o =>
      rw [hv] at hok
      cases o with
      | none => exact ih hok (fun v' hm hn => hskip v' (List.mem_cons_of_mem _ hm) hn)
      | some val =>
        by_cases hn : v.name = n
        · exfalso
          have := varSkip_eval (hskip v (List.mem_cons_self v rest) hn) e
          rw [hv] at this
          cases this
        · have := ih hok (fun v' hm hn' => hskip v' (List.mem_cons_of_mem _ hm) hn')
          rw [this]
          have hn' : ¬ n = v.name := fun h => hn h.symm
          simp [envInsert, hn']

/-- Names never yielded by a `varsFrom` block flow through it unchanged. -/
theorem varsFromEnv_skip_name {st : Cluster} {l : List VarsFromSource} {e e' : Env}
    {n : String} (hok : varsFromEnv st l e = .ok e')
    (hnone : ∀ w ∈ l, ∀ p, varsFromValues st w = .ok p → lookupLastKV p.1 n = none) :
    e' n = e n := by
  induction l generalizing e with
  | nil =>
    cases hok
    rfl
  | cons w rest ih =>
    unfold varsFromEnv at hok
    cases hw : varsFromValues st w with
    | error err => rw [hw] at hok; cases hok
    | ok sv =>
      rw [hw] at hok
      have := ih hok (fun w' hm => hnone w' (List.mem_cons_of_mem _ hm))
      rw [this, envInsertAll_apply, hnone w (List.mem_cons_self w rest) sv hw]

/-- C4.  Precedence of the resolved environment, weakest to strongest:
earlier `varsFrom` entries, later `varsFrom` entries, `vars` entries.
When `makeVariables` succeeds: (a) the last non-skipping `vars` entry
named `n` determines `env n`, its value computed in the environment
accumulated so far — in particular a literal is expanded against exactly
that environment, so it sees `varsFrom` bindings and earlier `vars`;
(b) if no `vars` entry binds `n`, `env n` is the `varsFrom` result; and
(c) within `varsFrom`, the last entry yielding `n` wins. -/
theorem makeVariables_precedence (st : Cluster) (spec : ConfigMapSecretSpec) (env : Env)
    (n : String) (henv : makeVariables st spec = .ok env) :
    ∃ e₀, varsFromEnv st spec.varsFrom emptyEnv = .ok e₀
      ∧ varsPhase st spec.vars e₀ = .ok env
      ∧ (∀ l₁ v l₂, spec.vars = l₁ ++ v :: l₂ → v.name = n → ¬ varSkip st v →
          (∀ v' ∈ l₂, v'.name = n → varSkip st v') →
          ∃ e₁ val, varsPhase st l₁ e₀ = .ok e₁
            ∧ varEval st e₁ v = .ok (some val)
            ∧ (v.value ≠ "" → val = expand v.value e₁)
            ∧ env n = some val)
      ∧ ((∀ v ∈ spec.vars, v.name = n → varSkip st v) → env n = e₀ n)
      ∧ (∀ f₁ w f₂ p val, spec.varsFrom = f₁ ++ w :: f₂ →
          varsFromValues st w = .ok p → lookupLastKV p.1 n = some val →
          (∀ w' ∈ f₂, ∀ p', varsFromValues st w' = .ok p' → lookupLastKV p'.1 n = none) →
          e₀ n = some val) := by
  unfold makeVariables at henv
  cases h₀ : varsFromEnv st spec.varsFrom emptyEnv with
  | error err => rw [h₀] at henv; cases henv
  | ok e₀ =>
    rw [h₀] at henv
    replace henv : varsPhase st spec.vars e₀ = .ok env := henv
    refine ⟨e₀, rfl, henv, ?_, ?_, ?_⟩
    · intro l₁ v l₂ hsplit hname hbind hskip
      rw [hsplit, varsPhase_append] at henv
      cases h₁ : varsPhase st l₁ e₀ with
      | error err => rw [h₁] at henv; cases henv
      | ok e₁ =>
        rw [h₁] at henv
        unfold varsPhase at henv
        cases hv : varEval st e₁ v with
        | error err => rw [hv] at henv; cases henv
        | ok o =>
          rw [hv] at henv
          cases o with
          | none => exact absurd (varSkip_of_eval hv) hbind
          | some val =>
            refine ⟨e₁, val, rfl, hv, ?_, ?_⟩
            · intro hlit
              unfold varEval at hv
              rw [if_pos hlit] at hv
              exact (Option.some.inj (Except.ok.inj hv)).symm
            · have := varsPhase_skip_name henv hskip
              rw [this, hname]
              simp [envInsert]
    · intro hskip
      exact varsPhase_skip_name henv hskip
    · intro f₁ w f₂ p val hsplit hvals hlast hnone
      rw [hsplit, varsFromEnv_append] at h₀
      cases h₁ : varsFromEnv st f₁ emptyEnv with
      | error err => rw [h₁] at h₀; cases h₀
      | ok ea =>
        rw [h₁] at h₀
        replace h₀ : varsFromEnv st (w :: f₂) ea = .ok e₀ := h₀
        unfold varsFromEnv at h₀
        rw [hvals] at h₀
        have := varsFromEnv_skip_name h₀ hnone
        rw [this, envInsertAll_apply, hlast]

/-- Fixtures for the C4 witness: one `varsFrom` configmap yielding
`FOO = abc`, then a literal var `BAR = "x $(FOO)"`. -/
def wC4 : VarsFromSource :=
  { pfx := "", secretRef := none,
    configMapRef := some { name := "cm", optional := none } }

def varC4 : Var :=
  { name := "BAR", value := "x $(FOO)", secretValue := none, configMapValue := none }

def specC4 : ConfigMapSecretSpec :=
  { template := { metadata := { name := "", labels := [], annotations := [] },
                  data := [], binaryData := [] },
    varsFrom := [wC4], vars := [varC4] }

def stC4 : Cluster :=
  { secrets := fun _ => .notFound,
    configMaps := fun nm =>
      if nm = "cm" then .found { name := "cm", data := [("FOO", "abc")], binaryData := [] }
      else .notFound }

/-- Witness for C4: the literal var `BAR` is expanded against the
environment produced by the `varsFrom` entry, giving `x abc`. -/
theorem makeVariables_precedence_w :
    ∃ env, makeVariables stC4 specC4 = .ok env ∧ env "BAR" = some "x abc" := by
  obtain ⟨env, henv⟩ : ∃ env, makeVariables stC4 specC4 = .ok env := ⟨_, rfl⟩
  obtain ⟨e₀, h₀, hphase, hA, hB, hC⟩ := makeVariables_precedence stC4 specC4 env "BAR" henv
  obtain ⟨e₁, val, h₁, h₂, h₃, h₄⟩ := hA [] varC4 [] rfl rfl (by decide) (by simp)
  have hE : varsFromEnv stC4 specC4.varsFrom emptyEnv
      = .ok (envInsertAll emptyEnv [("FOO", "abc")]) := rfl
  have he₀ : e₀ = envInsertAll emptyEnv [("FOO", "abc")] :=
    Except.ok.inj (h₀.symm.trans hE)
  have he₁ : e₁ = e₀ := by
    have h₁' : (Except.ok e₀ : Except Err Env) = .ok e₁ := h₁
    exact (Except.ok.inj h₁').symm
  refine ⟨env, henv, ?_⟩
  rw [h₄]
  have hval := h₃ (by decide)
  have hvv : varC4.value = "x $(FOO)" := rfl
  rw [hvv] at hval
  rw [hval, he₁, he₀]
  have : expand "x $(FOO)" (envInsertAll emptyEnv [("FOO", "abc")]) = "x abc" := by decide
  rw [this]

/-! ## C8: the reference index -/

theorem mem_rowRem (t : RefKey → Option (Finset String)) (k k' : RefKey) (xv y : String) :
    y ∈ rowGet (rowRem t k xv) k' ↔ (y ∈ rowGet t k' ∧ ¬(k' = k ∧ y = xv)) := by
  simp only [rowRem, rowGet]
  by_cases hk : k' = k
  · rw [if_pos hk]
    subst hk
    by_cases he : ((t k').getD ∅).erase xv = ∅
    · rw [if_pos he]
      constructor
      · intro h
        exact absurd h (by simp)
      · intro ⟨h1, h2⟩
        have : y ∈ ((t k').getD ∅).erase xv := Finset.mem_erase.mpr ⟨fun h => h2 ⟨rfl, h⟩, h1⟩
        rw [he] at this
        exact absurd this (by simp)
    · rw [if_neg he]
      show y ∈ ((t k').getD ∅).erase xv ↔ _
      rw [Finset.mem_erase]
      constructor
      · intro ⟨h1, h2⟩
        exact ⟨h2, fun h => h1 h.2⟩
      · intro ⟨h1, h2⟩
        exact ⟨fun h => h2 ⟨rfl, h⟩, h1⟩
  · rw [if_neg hk]
    constructor
    · intro h
      exact ⟨h, fun hh => hk hh.1⟩
    · intro h
      exact h.1

theorem mem_rowAdd (t : RefKey → Option (Finset String)) (k k' : RefKey) (xv y : String) :
    y ∈ rowGet (rowAdd t k xv) k' ↔ (y ∈ rowGet t k' ∨ (k' = k ∧ y = xv)) := by
  simp only [rowAdd, rowGet]
  by_cases hk : k' = k
  · rw [if_pos hk]
    subst hk
    show y ∈ insert xv ((t k').getD ∅) ↔ _
    rw [Finset.mem_insert]
    constructor
    · intro h
      cases h with
      | inl h => exact Or.inr ⟨rfl, h⟩
      | inr h => exact Or.inl h
    · intro h
      cases h with
      | inl h => exact Or.inr h
      | inr h => exact Or.inl h.2
  · rw [if_neg hk]
    constructor
    · intro h
      exact Or.inl h
    · intro h
      cases h with
      | inl h => exact h
      | inr h => exact absurd h.1 hk

theorem rowRem_ne_empty {t : RefKey → Option (Finset String)}
    (h : ∀ k0, t k0 ≠ some ∅) (k : RefKey) (xv : String) :
    ∀ k0, rowRem t k xv k0 ≠ some ∅ := by
  intro k0
  unfold rowRem
  by_cases hk : k0 = k
  · rw [if_pos hk]
    by_cases he : ((rowGet t k).erase xv) = ∅
    · simp [he]
    · simp only [he, if_neg]
      intro hcon
      exact he (Option.some.inj hcon)
  · rw [if_neg hk]
    exact h k0

theorem rowAdd_ne_empty {t : RefKey → Option (Finset String)}
    (h : ∀ k0, t k0 ≠ some ∅) (k : RefKey) (xv : String) :
    ∀ k0, rowAdd t k xv k0 ≠ some ∅ := by
  intro k0
  unfold rowAdd
  by_cases hk : k0 = k
  · rw [if_pos hk]
    intro hcon
    have := Option.some.inj hcon
    exact absurd (this ▸ Finset.mem_insert_self xv (rowGet t k)) (by simp)
  · rw [if_neg hk]
    exact h k0

theorem consistent_rem {m : RefMap} (h : m.Consistent) (ns src dst : String) :
    (m.rem ns src dst).Consistent := by
  refine ⟨?_, fun k0 => rowRem_ne_empty h.2.1 (ns, src) dst k0,
    fun k0 => rowRem_ne_empty h.2.2 (ns, dst) src k0⟩
  intro a b c
  have e1 : c ∈ (m.rem ns src dst).dsts a b
      ↔ (c ∈ m.dsts a b ∧ ¬(((a, b) : RefKey) = (ns, src) ∧ c = dst)) :=
    mem_rowRem m.srcDsts (ns, src) (a, b) dst c
  have e2 : b ∈ (m.rem ns src dst).srcs a c
      ↔ (b ∈ m.srcs a c ∧ ¬(((a, c) : RefKey) = (ns, dst) ∧ b = src)) :=
    mem_rowRem m.dstSrcs (ns, dst) (a, c) src b
  rw [e1, e2, h.1 a b c]
  simp only [Prod.mk.injEq]
  tauto

theorem consistent_add {m : RefMap} (h : m.Consistent) (ns src dst : String) :
    (m.add ns src dst).Consistent := by
  refine ⟨?_, fun k0 => rowAdd_ne_empty h.2.1 (ns, src) dst k0,
    fun k0 => rowAdd_ne_empty h.2.2 (ns, dst) src k0⟩
  intro a b c
  have e1 : c ∈ (m.add ns src dst).dsts a b
      ↔ (c ∈ m.dsts a b ∨ (((a, b) : RefKey) = (ns, src) ∧ c = dst)) :=
    mem_rowAdd m.srcDsts (ns, src) (a, b) dst c
  have e2 : b ∈ (m.add ns src dst).srcs a c
      ↔ (b ∈ m.srcs a c ∨ (((a, c) : RefKey) = (ns, dst) ∧ b = src)) :=
    mem_rowAdd m.dstSrcs (ns, dst) (a, c) src b
  rw [e1, e2, h.1 a b c]
  simp only [Prod.mk.injEq]
  tauto

/-- Effect of the removal loop of `set`: consistency is preserved, the
source row keeps exactly the elements not slated for removal, and the
reverse rows lose `src` exactly at removed dependencies. -/
theorem remFold_spec (ns src : String) (D : Finset String) :
    ∀ (L : List String) (m : RefMap), m.Consistent →
      (remFold ns src D L m).Consistent
      ∧ (∀ x, x ∈ (remFold ns src D L m).dsts ns src
            ↔ (x ∈ m.dsts ns src ∧ (x ∈ L → x ∈ D)))
      ∧ (∀ a c y, y ∈ (remFold ns src D L m).srcs a c
            ↔ (y ∈ m.srcs a c ∧ ¬(a = ns ∧ y = src ∧ c ∈ L ∧ c ∉ D))) := by
  intro L
  induction L with
  | nil =>
    intro m hm
    refine ⟨hm, fun x => ?_, fun a c y => ?_⟩ <;> simp [remFold]
  | cons z L ih =>
    intro m hm
    by_cases hz : z ∈ D
    · have hfold : remFold ns src D (z :: L) m = remFold ns src D L m := by
        have h0 : remFold ns src D (z :: L) m
            = remFold ns src D L (if z ∈ D then m else m.rem ns src z) := rfl
        rw [h0, if_pos hz]
      obtain ⟨hc, hd, hs⟩ := ih m hm
      rw [hfold]
      refine ⟨hc, fun x => ?_, fun a c y => ?_⟩
      · rw [hd x]
        constructor
        · intro ⟨h1, h2⟩
          refine ⟨h1, fun hmem => ?_⟩
          rcases List.mem_cons.mp hmem with rfl | hmem
          · exact hz
          · exact h2 hmem
        · intro ⟨h1, h2⟩
          exact ⟨h1, fun hmem => h2 (List.mem_cons_of_mem _ hmem)⟩
      · rw [hs a c y]
        constructor
        · intro ⟨h1, h2⟩
          refine ⟨h1, fun ⟨ha, hy, hcm, hcd⟩ => ?_⟩
          rcases List.mem_cons.mp hcm with rfl | hcm
          · exact hcd hz
          · exact h2 ⟨ha, hy, hcm, hcd⟩
        · intro ⟨h1, h2⟩
          exact ⟨h1, fun ⟨ha, hy, hcm, hcd⟩ => h2 ⟨ha, hy, List.mem_cons_of_mem _ hcm, hcd⟩⟩
    · have hfold : remFold ns src D (z :: L) m = remFold ns src D L (m.rem ns src z) := by
        have h0 : remFold ns src D (z :: L) m
            = remFold ns src D L (if z ∈ D then m else m.rem ns src z) := rfl
        rw [h0, if_neg hz]
      obtain ⟨hc, hd, hs⟩ := ih (m.rem ns src z) (consistent_rem hm ns src z)
      rw [hfold]
      refine ⟨hc, fun x => ?_, fun a c y => ?_⟩
      · have e1 : x ∈ (m.rem ns src z).dsts ns src
            ↔ (x ∈ m.dsts ns src ∧ ¬(((ns, src) : RefKey) = (ns, src) ∧ x = z)) :=
          mem_rowRem m.srcDsts (ns, src) (ns, src) z x
        rw [hd x, e1]
        simp only [Prod.mk.injEq, true_and, and_self, not_true_eq_false, true_implies]
        constructor
        · intro ⟨⟨h1, h2⟩, h3⟩
          refine ⟨h1, fun hmem => ?_⟩
          rcases List.mem_cons.mp hmem with rfl | hmem
          · exact absurd rfl h2
          · exact h3 hmem
        · intro ⟨h1, h2⟩
          have hxz : ¬ x = z := fun hh => hz (hh ▸ h2 (hh ▸ List.mem_cons_self z L))
          exact ⟨⟨h1, hxz⟩, fun hmem => h2 (List.mem_cons_of_mem _ hmem)⟩
      · have e2 : y ∈ (m.rem ns src z).srcs a c
            ↔ (y ∈ m.srcs a c ∧ ¬(((a, c) : RefKey) = (ns, z) ∧ y = src)) :=
          mem_rowRem m.dstSrcs (ns, z) (a, c) src y
        rw [hs a c y, e2]
        simp only [Prod.mk.injEq]
        constructor
        · intro ⟨⟨h1, h2⟩, h3⟩
          refine ⟨h1, fun ⟨ha, hy, hcm, hcd⟩ => ?_⟩
          rcases List.mem_cons.mp hcm with rfl | hcm
          · exact h2 ⟨⟨ha, rfl⟩, hy⟩
          · exact h3 ⟨ha, hy, hcm, hcd⟩
        · intro ⟨h1, h2⟩
          refine ⟨⟨h1, fun ⟨⟨ha, hcz⟩, hy⟩ => ?_⟩,
            fun ⟨ha, hy, hcm, hcd⟩ => h2 ⟨ha, hy, List.mem_cons_of_mem _ hcm, hcd⟩⟩
          exact h2 ⟨ha, hy, hcz ▸ List.mem_cons_self z L, hcz ▸ hz⟩

/-- Effect of the insertion loop of `set` on a consistent map. -/
theorem addFold_spec (ns src : String) :
    ∀ (L : List String) (m : RefMap), m.Consistent →
      (addFold ns src L m).Consistent
      ∧ (∀ x, x ∈ (addFold ns src L m).dsts ns src ↔ (x ∈ m.dsts ns src ∨ x ∈ L))
      ∧ (∀ a c y, y ∈ (addFold ns src L m).srcs a c
            ↔ (y ∈ m.srcs a c ∨ (a = ns ∧ y = src ∧ c ∈ L))) := by
  intro L
  induction L with
  | nil =>
    intro m hm
    refine ⟨hm, fun x => ?_, fun a c y => ?_⟩ <;> simp [addFold]
  | cons z L ih =>
    intro m hm
    by_cases hz : m.has ns src z = true
    · have hfold : addFold ns src (z :: L) m = addFold ns src L m := by
        have h0 : addFold ns src (z :: L) m
            = addFold ns src L (if m.has ns src z = true then m else m.add ns src z) := rfl
        rw [h0, if_pos hz]
      have hzm : z ∈ m.dsts ns src := by
        have := hz
        unfold RefMap.has at this
        exact of_decide_eq_true this
      obtain ⟨hc, hd, hs⟩ := ih m hm
      rw [hfold]
      refine ⟨hc, fun x => ?_, fun a c y => ?_⟩
      · rw [hd x]
        constructor
        · intro h
          rcases h with h | h
          · exact Or.inl h
          · exact Or.inr (List.mem_cons_of_mem _ h)
        · intro h
          rcases h with h | h
          · exact Or.inl h
          · rcases List.mem_cons.mp h with rfl | h
            · exact Or.inl hzm
            · exact Or.inr h
      · rw [hs a c y]
        constructor
        · intro h
          rcases h with h | ⟨ha, hy, hcm⟩
          · exact Or.inl h
          · exact Or.inr ⟨ha, hy, List.mem_cons_of_mem _ hcm⟩
        · intro h
          rcases h with h | ⟨ha, hy, hcm⟩
          · exact Or.inl h
          · rcases List.mem_cons.mp hcm with hcz | hcm
            · refine Or.inl ?_
              rw [ha, hy, hcz]
              exact (hm.1 ns src z).mp hzm
            · exact Or.inr ⟨ha, hy, hcm⟩
    · have hfold : addFold ns src (z :: L) m = addFold ns src L (m.add ns src z) := by
        have h0 : addFold ns src (z :: L) m
            = addFold ns src L (if m.has ns src z = true then m else m.add ns src z) := rfl
        rw [h0, if_neg hz]
      obtain ⟨hc, hd, hs⟩ := ih (m.add ns src z) (consistent_add hm ns src z)
      rw [hfold]
      refine ⟨hc, fun x => ?_, fun a c y => ?_⟩
      · have e1 : x ∈ (m.add ns src z).dsts ns src
            ↔ (x ∈ m.dsts ns src ∨ (((ns, src) : RefKey) = (ns, src) ∧ x = z)) :=
          mem_rowAdd m.srcDsts (ns, src) (ns, src) z x
        rw [hd x, e1]
        simp only [Prod.mk.injEq, true_and, and_self, true_and]
        constructor
        · intro h
          rcases h with h | h
          · rcases h with h | hxz
            · exact Or.inl h
            · refine Or.inr ?_
              rw [hxz]
              exact List.mem_cons_self z L
          · exact Or.inr (List.mem_cons_of_mem _ h)
        · intro h
          rcases h with h | h
          · exact Or.inl (Or.inl h)
          · rcases List.mem_cons.mp h with rfl | h
            · exact Or.inl (Or.inr rfl)
            · exact Or.inr h
      · have e2 : y ∈ (m.add ns src z).srcs a c
            ↔ (y ∈ m.srcs a c ∨ (((a, c) : RefKey) = (ns, z) ∧ y = src)) :=
          mem_rowAdd m.dstSrcs (ns, z) (a, c) src y
        rw [hs a c y, e2]
        simp only [Prod.mk.injEq]
        constructor
        · intro h
          rcases h with h | ⟨ha, hy, hcm⟩
          · rcases h with h | ⟨⟨ha, hcz⟩, hy⟩
            · exact Or.inl h
            · exact Or.inr ⟨ha, hy, hcz ▸ List.mem_cons_self z L⟩
          · exact Or.inr ⟨ha, hy, List.mem_cons_of_mem _ hcm⟩
        · intro h
          rcases h with h | ⟨ha, hy, hcm⟩
          · exact Or.inl (Or.inl h)
          · rcases List.mem_cons.mp hcm with rfl | hcm
            · exact Or.inl (Or.inr ⟨⟨ha, rfl⟩, hy⟩)
            · exact Or.inr ⟨ha, hy, hcm⟩

theorem mem_enumNames (s : Finset String) (x : String) : x ∈ enumNames s ↔ x ∈ s := by
  unfold enumNames
  exact Finset.mem_sort _

/-- The zero value of the index is consistent. -/
theorem consistent_empty : RefMap.empty.Consistent := by
  refine ⟨fun a b c => ?_, fun k => ?_, fun k => ?_⟩ <;>
    simp [RefMap.empty, RefMap.dsts, RefMap.srcs, rowGet]

/-- C8.  For every consistent index state (every state the controller's
index can be in: the zero value is consistent and `set` preserves
consistency) and every `set(namespace, src, newDeps)` call: afterwards
the forward row equals exactly `newDeps`; the reverse rows contain `src`
exactly at members of `newDeps`; neither direction stores an entry whose
set became empty; and the result is again consistent. -/
theorem refMap_set_spec (m : RefMap) (ns src : String) (dsts : Finset String)
    (hm : m.Consistent) :
    (m.set ns src dsts).dsts ns src = dsts
    ∧ (∀ d, src ∈ (m.set ns src dsts).srcs ns d ↔ d ∈ dsts)
    ∧ (∀ k, (m.set ns src dsts).srcDsts k ≠ some ∅)
    ∧ (∀ k, (m.set ns src dsts).dstSrcs k ≠ some ∅)
    ∧ (m.set ns src dsts).Consistent := by
  obtain ⟨hc1, hd1, hs1⟩ :=
    remFold_spec ns src dsts (enumNames (m.dsts ns src)) m hm
  obtain ⟨hc2, hd2, hs2⟩ :=
    addFold_spec ns src (enumNames dsts)
      (remFold ns src dsts (enumNames (m.dsts ns src)) m) hc1
  have hset : m.set ns src dsts
      = addFold ns src (enumNames dsts)
          (remFold ns src dsts (enumNames (m.dsts ns src)) m) := rfl
  rw [hset]
  refine ⟨?_, ?_, hc2.2.1, hc2.2.2, hc2⟩
  · apply Finset.ext
    intro x
    rw [hd2 x, hd1 x, mem_enumNames, mem_enumNames]
    constructor
    · intro h
      rcases h with ⟨h1, h2⟩ | h
      · exact h2 h1
      · exact h
    · intro h
      exact Or.inr h
  · intro d
    rw [hs2 ns d src, hs1 ns d src, mem_enumNames, mem_enumNames]
    have hmirror := (hm.1 ns src d).symm
    constructor
    · intro h
      rcases h with ⟨h1, h2⟩ | ⟨_, _, h⟩
      · by_cases hd : d ∈ dsts
        · exact hd
        · exact absurd ⟨rfl, rfl, hmirror.mp h1, hd⟩ h2
      · exact h
    · intro h
      exact Or.inr ⟨rfl, rfl, h⟩

/-- Witness for C8: setting `{a}` for `cms` in the empty index gives a
forward row `{a}` and a reverse row containing `cms`. -/
theorem refMap_set_spec_w :
    (RefMap.empty.set "default" "cms" {"a"}).dsts "default" "cms" = {"a"}
    ∧ "cms" ∈ (RefMap.empty.set "default" "cms" {"a"}).srcs "default" "a" := by
  have h := refMap_set_spec RefMap.empty "default" "cms" {"a"} consistent_empty
  exact ⟨h.1, (h.2.1 "a").mpr (Finset.mem_singleton_self "a")⟩

/-! ## C6: idempotence of consecutive reconciles (code bug)

Starting from a pre-existing target secret with no controller owner,
reconcile 1 succeeds and updates the secret, but — because `setOwner`
assigns the appended owner list to the source instead of the secret
(the C1 slip) — the stored secret still has no controller owner.  The
source and its dependencies are unchanged, yet reconcile 2 flags
`ownerChanged` again and issues another secret update, so consecutive
reconciles of an unchanged source are not write-free. -/

/-- The cluster state after the first reconcile's secret write. -/
def stTake2 : Cluster := applyWrite stTake (sync stTake cmsTake 0 none).write

/-- The source after the first reconcile's status write. -/
def cmsTake2 : ConfigMapSecretObj :=
  { cmsTake with status := (sync stTake cmsTake 0 none).statusAfter }

/-- C6 (code bug).  Both reconciles succeed, the source and the
referenced state are unchanged between them, the second status sync is
a no-op — yet the second reconcile still issues a secret update
(`write.isSome`), because the takeover owner reference was never stored
on the secret. -/
theorem second_reconcile_not_write_free :
    (sync stTake cmsTake 0 none).err = none
    ∧ (sync stTake cmsTake 0 none).write.isSome = true
    ∧ (sync stTake2 cmsTake2 1 none).err = none
    ∧ (sync stTake2 cmsTake2 1 none).statusWrote = false
    ∧ (sync stTake2 cmsTake2 1 none).write.isSome = true := by
  refine ⟨by decide, by decide, by decide, by decide, by decide⟩

end CMS
